import Mathlib

/-!
Verification of the qvault client-side cryptographic core against its
natural-language specification.  The Rust sources embedded here are
`src/id.rs`, `src/seeds.rs`, `src/user.rs`, `src/protocol.rs` and
`src/register.rs`.  External collaborator modules (`database.rs`,
`identity.rs`, `hkdf.rs`, `vault.rs`, `aes_gcm.rs`, serde, the base64
crate) are modelled: the base64 codec is implemented concretely (its
algorithm is fixed by RFC 4648), while cryptographic primitives and the
missing repository modules are abstracted as parameters collected in a
`Crypto` structure, with concrete definitions faithful to the spec where
the spec pins them down.
-/

namespace QVault

/-- Size of plain byte strings: each element is intended to be `< 256`. -/
abbrev Bytes := List Nat

/-- Embeds `Uid` from `id.rs`: an opaque 64-bit identifier wrapping a `u64`. -/
structure Uid where
  val : Nat
deriving DecidableEq, Repr

theorem Uid.val_injective : Function.Injective Uid.val := by
  intro a b h
  cases a; cases b; simpa using h

instance : LinearOrder Uid := LinearOrder.lift' Uid.val Uid.val_injective

/-- Embeds `Uid::as_bytes` (`id.rs`): the 8 big-endian bytes of the value,
exactly `u64::to_be_bytes`. -/
def Uid.beBytes (u : Uid) : Bytes :=
  [u.val / 256 ^ 7 % 256, u.val / 256 ^ 6 % 256, u.val / 256 ^ 5 % 256,
   u.val / 256 ^ 4 % 256, u.val / 256 ^ 3 % 256, u.val / 256 ^ 2 % 256,
   u.val / 256 % 256, u.val % 256]

/-- Embeds `u64::from_be_bytes` applied to an 8-byte array (`Uid::from_str`). -/
def fromBe8 : Bytes → Nat
  | [b0, b1, b2, b3, b4, b5, b6, b7] =>
    b0 * 256 ^ 7 + b1 * 256 ^ 6 + b2 * 256 ^ 5 + b3 * 256 ^ 4 +
      b4 * 256 ^ 3 + b5 * 256 ^ 2 + b6 * 256 + b7
  | _ => 0

/-- URL-safe base64 alphabet (RFC 4648 section 5), as used by
`base64::URL_SAFE` in `id.rs`. -/
def encChar (n : Nat) : Char :=
  if n < 26 then Char.ofNat (65 + n)
  else if n < 52 then Char.ofNat (97 + (n - 26))
  else if n < 62 then Char.ofNat (48 + (n - 52))
  else if n = 62 then '-'
  else '_'

/-- Inverse of the URL-safe base64 alphabet: `none` on characters outside it. -/
def decSex (c : Char) : Option Nat :=
  let n := c.toNat
  if 65 ≤ n ∧ n ≤ 90 then some (n - 65)
  else if 97 ≤ n ∧ n ≤ 122 then some (n - 97 + 26)
  else if 48 ≤ n ∧ n ≤ 57 then some (n - 48 + 52)
  else if n = 45 then some 62
  else if n = 95 then some 63
  else none

/-- Embeds `base64::encode_config(_, URL_SAFE)`: three input bytes become four
output characters, a final group of one or two bytes is padded with `=`. -/
def encodeBytes : Bytes → List Char
  | [] => []
  | [b0] => [encChar (b0 / 4), encChar (b0 % 4 * 16), '=', '=']
  | [b0, b1] => [encChar (b0 / 4), encChar (b0 % 4 * 16 + b1 / 16), encChar (b1 % 16 * 4), '=']
  | b0 :: b1 :: b2 :: rest =>
    encChar (b0 / 4) :: encChar (b0 % 4 * 16 + b1 / 16) ::
      encChar (b1 % 16 * 4 + b2 / 64) :: encChar (b2 % 64) :: encodeBytes rest

/-- Embeds `base64::decode_config(_, URL_SAFE)`: four-character groups are
decoded to three bytes; a trailing group may carry `=` padding (or be an
unpadded tail of two or three characters, which the crate also accepts). -/
def decodeChars : List Char → Option Bytes
  | [] => some []
  | c0 :: c1 :: c2 :: c3 :: rest =>
    match decSex c0, decSex c1 with
    | some s0, some s1 =>
      if c2 = '=' then
        if c3 = '=' ∧ rest = [] then some [s0 * 4 + s1 / 16] else none
      else
        match decSex c2 with
        | some s2 =>
          if c3 = '=' then
            if rest = [] then some [s0 * 4 + s1 / 16, s1 % 16 * 16 + s2 / 4] else none
          else
            match decSex c3 with
            | some s3 =>
              (decodeChars rest).map
                (fun tl =>
                  (s0 * 4 + s1 / 16) :: (s1 % 16 * 16 + s2 / 4) :: (s2 % 4 * 64 + s3) :: tl)
            | none => none
        | none => none
    | _, _ => none
  | [c0, c1] =>
    match decSex c0, decSex c1 with
    | some s0, some s1 => some [s0 * 4 + s1 / 16]
    | _, _ => none
  | [c0, c1, c2] =>
    match decSex c0, decSex c1, decSex c2 with
    | some s0, some s1, some s2 => some [s0 * 4 + s1 / 16, s1 % 16 * 16 + s2 / 4]
    | _, _, _ => none
  | _ => none

/-- Embeds `Uid::to_base64` (`id.rs`): URL-safe base64 of the 8 big-endian
bytes. -/
def Uid.toBase64 (u : Uid) : String :=
  ⟨encodeBytes u.beBytes⟩

/-- Embeds `Uid::from_str` (`id.rs`): base64-decode, require exactly 8 bytes,
then `u64::from_be_bytes`. -/
def Uid.fromStr (s : String) : Except String Uid :=
  match decodeChars s.toList with
  | none => .error "decode error"
  | some bytes => if bytes.length = 8 then .ok ⟨fromBe8 bytes⟩ else .error "wrong length"

theorem decSex_encChar : ∀ n, n < 64 → decSex (encChar n) = some n := by decide

theorem encChar_ne_pad : ∀ n, n < 64 → ¬ encChar n = '=' := by decide

theorem decode_encode :
    ∀ bs : Bytes, (∀ b ∈ bs, b < 256) → decodeChars (encodeBytes bs) = some bs
  | [], _ => by simp [encodeBytes, decodeChars]
  | [b0], h => by
    have hb0 : b0 < 256 := h b0 (by simp)
    have h0 : b0 / 4 < 64 := by omega
    have h1 : b0 % 4 * 16 < 64 := by omega
    simp only [encodeBytes, decodeChars, decSex_encChar _ h0, decSex_encChar _ h1]
    simp only [if_pos rfl, and_self, ite_true, Option.some.injEq, List.cons.injEq, and_true]
    omega
  | [b0, b1], h => by
    have hb0 : b0 < 256 := h b0 (by simp)
    have hb1 : b1 < 256 := h b1 (by simp)
    have h0 : b0 / 4 < 64 := by omega
    have h1 : b0 % 4 * 16 + b1 / 16 < 64 := by omega
    have h2 : b1 % 16 * 4 < 64 := by omega
    simp only [encodeBytes, decodeChars, decSex_encChar _ h0, decSex_encChar _ h1]
    rw [if_neg (encChar_ne_pad _ h2)]
    simp only [decSex_encChar _ h2, if_pos rfl, ite_true, Option.some.injEq, List.cons.injEq,
      and_true]
    omega
  | [b0, b1, b2], h => by
    have hb0 : b0 < 256 := h b0 (by simp)
    have hb1 : b1 < 256 := h b1 (by simp)
    have hb2 : b2 < 256 := h b2 (by simp)
    have h0 : b0 / 4 < 64 := by omega
    have h1 : b0 % 4 * 16 + b1 / 16 < 64 := by omega
    have h2 : b1 % 16 * 4 + b2 / 64 < 64 := by omega
    have h3 : b2 % 64 < 64 := by omega
    simp only [encodeBytes, decodeChars, decSex_encChar _ h0, decSex_encChar _ h1]
    rw [if_neg (encChar_ne_pad _ h2)]
    simp only [decSex_encChar _ h2]
    rw [if_neg (encChar_ne_pad _ h3)]
    simp only [decSex_encChar _ h3, decodeChars, Option.map_some', Option.some.injEq,
      List.cons.injEq, and_true]
    omega
  | b0 :: b1 :: b2 :: b3 :: rest, h => by
    have hb0 : b0 < 256 := h b0 (by simp)
    have hb1 : b1 < 256 := h b1 (by simp)
    have hb2 : b2 < 256 := h b2 (by simp)
    have h0 : b0 / 4 < 64 := by omega
    have h1 : b0 % 4 * 16 + b1 / 16 < 64 := by omega
    have h2 : b1 % 16 * 4 + b2 / 64 < 64 := by omega
    have h3 : b2 % 64 < 64 := by omega
    have ih := decode_encode (b3 :: rest) (fun b hb => h b (by simp at hb ⊢; tauto))
    simp only [encodeBytes, decodeChars, decSex_encChar _ h0, decSex_encChar _ h1]
    rw [if_neg (encChar_ne_pad _ h2)]
    simp only [decSex_encChar _ h2]
    rw [if_neg (encChar_ne_pad _ h3)]
    simp only [decSex_encChar _ h3]
    rw [ih]
    simp only [Option.map_some', Option.some.injEq, List.cons.injEq, and_true]
    omega

/-- C7: `Uid::from_str` accepts legacy URL-safe base64 strings with trailing
`=` padding and returns exactly the observed integers on the three fixture
inputs of `test_deserialize_from_php`. -/
theorem c7_uid_fixture_parsing :
    Uid.fromStr "XTocpJNLemU=" = .ok ⟨6717713287347927653⟩ ∧
      Uid.fromStr "Eu8pqc6x9nc=" = .ok ⟨1364355021410530935⟩ ∧
      Uid.fromStr "VfWfa-5ou7M=" = .ok ⟨6194032148428143539⟩ :=
  ⟨rfl, rfl, rfl⟩

/-- C8: for every 64-bit value, `Uid::to_base64` followed by `Uid::from_str`
returns the original `Uid` (base64 round-trip identity). -/
theorem c8_uid_base64_roundtrip (v : Nat) (h : v < 2 ^ 64) :
    Uid.fromStr (Uid.toBase64 ⟨v⟩) = .ok ⟨v⟩ := by
  have hb : ∀ b ∈ Uid.beBytes ⟨v⟩, b < 256 := by
    intro b hb
    simp only [Uid.beBytes, List.mem_cons, List.not_mem_nil, or_false] at hb
    rcases hb with h' | h' | h' | h' | h' | h' | h' | h' <;> (subst h'; omega)
  have hd := decode_encode (Uid.beBytes ⟨v⟩) hb
  unfold Uid.fromStr Uid.toBase64
  rw [show String.toList ⟨encodeBytes (Uid.beBytes ⟨v⟩)⟩ = encodeBytes (Uid.beBytes ⟨v⟩) from rfl]
  rw [hd]
  have hlen : (Uid.beBytes ⟨v⟩).length = 8 := by simp [Uid.beBytes]
  simp only [hlen, eq_self_iff_true, if_true]
  have hbe : fromBe8 (Uid.beBytes ⟨v⟩) = v := by
    simp only [Uid.beBytes, fromBe8]
    omega
  rw [hbe]

/-- C8 witness at a concrete 64-bit value. -/
theorem c8_uid_base64_roundtrip_witness :
    Uid.fromStr (Uid.toBase64 ⟨6717713287347927653⟩) = .ok ⟨6717713287347927653⟩ :=
  c8_uid_base64_roundtrip 6717713287347927653 (by decide)

/-- Embeds `Seed` (`seeds.rs`): 32 immutable bytes (the length is not tracked,
it plays no role in the claims). -/
structure Seed where
  bytes : Bytes
deriving DecidableEq

/-- Embeds `Salt` (`salt.rs`, external collaborator): opaque random bytes. -/
structure Salt where
  bytes : Bytes
deriving DecidableEq

/-- Opaque Ed25519 signature value. -/
abbrev Sig := Nat

/-- Opaque asymmetric ciphertext (`identity::Encrypted`). -/
abbrev AsymEncrypted := Nat

/-- Opaque encrypted filesystem node (`vault::LockedNode`). -/
abbrev LockedNode := Nat

/-- Modelled from the spec: `identity::Public` (module `identity.rs` is not
under `src/`) carries public key halves and a deterministic `Uid`; only the id
and an opaque key value are needed here. -/
structure Public where
  id : Uid
  key : Nat
deriving DecidableEq

/-- Modelled from the spec: `identity::Private` (module `identity.rs` is not
under `src/`) bundles an X448 agreement key and an Ed25519 signing key; only
their byte strings (used by `derive_seed_with_label` in `user.rs`) appear. -/
structure Private where
  x448 : Bytes
  ed25519 : Bytes
deriving DecidableEq

/-- Embeds `Identity`: the private/public pair. -/
structure Identity where
  _priv : Private
  _pub : Public
deriving DecidableEq

def Identity.id (i : Identity) : Uid := i._pub.id

/-- Embeds `GOD_ID` from `user.rs`. -/
def GOD_ID : Nat := 0

/-- Embeds `ROOT_ID` from `seeds.rs`. -/
def ROOT_ID : Nat := 0

def rootUid : Uid := ⟨ROOT_ID⟩

/-- Modelled from the spec: `Public::is_god` (module `identity.rs` is not under
`src/`); the spec fixes `Public.id() == GOD_ID` iff the user is god. -/
def Public.isGod (p : Public) : Bool := p.id = ⟨GOD_ID⟩

/-- Association-list model of `HashMap<Uid, Seed>` (`seeds::Seeds`); insertion
replaces the value of an existing key, exactly like `HashMap::insert`. -/
abbrev Seeds := List (Uid × Seed)

def lookupSeed : Seeds → Uid → Option Seed
  | [], _ => none
  | (k1, v) :: t, k => if k1 = k then some v else lookupSeed t k

def insertSeed : Seeds → Uid → Seed → Seeds
  | [], k, v => [(k, v)]
  | (k1, v1) :: t, k, v => if k1 = k then (k, v) :: t else (k1, v1) :: insertSeed t k v

/-- The key list of a seed map (`HashMap::keys`). -/
def seedKeys (m : Seeds) : List Uid := m.map (·.1)

/-- Embeds `collect` into a `HashMap` over a pair sequence: later entries win. -/
def buildSeedMap (l : List (Uid × Seed)) : Seeds :=
  l.foldl (fun m p => insertSeed m p.1 p.2) []

/-- Embeds `Bundle` (`seeds.rs`): fs and db seed maps. -/
structure Bundle where
  fs : Seeds
  db : Seeds
deriving DecidableEq

def Bundle.new : Bundle := ⟨[], []⟩

def Bundle.setFs (b : Bundle) (id : Uid) (s : Seed) : Bundle :=
  { b with fs := insertSeed b.fs id s }

def Bundle.setDb (b : Bundle) (id : Uid) (s : Seed) : Bundle :=
  { b with db := insertSeed b.db id s }

/-- Embeds `Export` (`seeds.rs`); the source field `export` is spelled `exprt`
where it would clash with the Lean keyword. -/
structure Export where
  receiver : Uid
  fs : List Uid
  db : List Uid
deriving DecidableEq

/-- Embeds the `Sorted` trait of `seeds.rs` (`Vec::sort` on `Uid`). -/
def sortedUids (l : List Uid) : List Uid := l.insertionSort (· ≤ ·)

theorem sortedUids_eq_of_perm {l1 l2 : List Uid} (h : l1.Perm l2) :
    sortedUids l1 = sortedUids l2 :=
  List.eq_of_perm_of_sorted
    ((List.perm_insertionSort _ l1).trans (h.trans (List.perm_insertionSort _ l2).symm))
    (List.sorted_insertionSort _ l1) (List.sorted_insertionSort _ l2)

/-- Embeds `Export::from_bundle` (`seeds.rs`). -/
def Export.fromBundle (b : Bundle) (receiverId : Uid) : Export :=
  ⟨receiverId, seedKeys b.fs, seedKeys b.db⟩

/-- Embeds `Export::hash` (`seeds.rs`): SHA-256 of the concatenated big-endian
bytes of the sorted fs ids, then the sorted db ids, then the receiver id.
`sha` stands for the external `Sha256::digest`. -/
def Export.hash (sha : Bytes → Bytes) (e : Export) : Bytes :=
  sha (((sortedUids e.fs ++ sortedUids e.db).flatMap Uid.beBytes) ++ e.receiver.beBytes)

/-- Embeds `ctx_to_sign` (`seeds.rs`). -/
def ctxToSign (sha : Bytes → Bytes) (sender : Public) (e : Export) : Bytes :=
  sender.id.beBytes ++ e.hash sha

/-- Embeds `Import` (`seeds.rs`). -/
structure Import where
  sender : Public
  bundle : Bundle
deriving DecidableEq

/-- Embeds `LockedShare` (`seeds.rs`); field `exprt` is the source's `export`. -/
structure LockedShare where
  sender : Public
  exprt : Export
  payload : AsymEncrypted
  sig : Sig
deriving DecidableEq

/-- Embeds `database::Index` (the database index model of the spec). -/
inductive Index where
  | table (table : String)
  | column (table : String) (column : String)
deriving DecidableEq

/-- Modelled from the spec: `vault::Entry` (module `vault.rs` is not under
`src/`); children are kept as ids rather than inline nodes. -/
inductive Entry where
  | file (ext : Option String) (size : Nat) (keyIv : Bytes)
  | dir (seed : Seed) (children : List Uid)
deriving DecidableEq

/-- Modelled from the spec: `vault::Node` (module `vault.rs` is not under
`src/`): `{ id, parent_id, created_at, name, entry, dirty }`. -/
structure Node where
  id : Uid
  parentId : Uid
  createdAt : Nat
  name : String
  entry : Entry
  dirty : Bool
deriving DecidableEq

/-- Modelled from the spec: `vault::FileSystem` (module `vault.rs` is not
under `src/`), reduced to its node collection. -/
abbrev FileSystem := List Node

/-- Modelled from the spec: `vault::NO_PARENT_ID`, the sentinel terminating
parent walks; its concrete value is not fixed by the sources under `src/`. -/
def noParentUid : Uid := ⟨2 ^ 64 - 1⟩

/-- Modelled from the spec: `FileSystem::node_by_id`. -/
def nodeById (fs : FileSystem) (id : Uid) : Option Node :=
  fs.find? (fun n => n.id = id)

/-- Modelled from the spec: `FileSystem::ls_root`. -/
def lsRoot (fs : FileSystem) : List Node :=
  fs.filter (fun n => n.parentId = noParentUid)

/-- Modelled from the spec: the primitives layer and the repository modules
that are not under `src/` (`hkdf.rs`, `identity.rs` crypto operations,
`aes_gcm.rs`, serde, `database.rs` labelled hashes and derivations,
`vault.rs` filesystem operations), abstracted as function parameters. -/
structure Crypto where
  sha256 : Bytes → Bytes
  sign : Private → Bytes → Sig
  verify : Public → Sig → Bytes → Bool
  decrypt : Private → AsymEncrypted → Option Bytes
  parseBundle : Bytes → Option Bundle
  encryptToPub : Public → Bundle → AsymEncrypted
  hkdfExpand : Bytes → Bytes → Bytes
  hkdfExpandNoInfo : Bytes → Bytes
  aesEncrypt : Bytes → Bytes → Bytes
  aesDecrypt : Bytes → Bytes → Option Bytes
  idForTable : String → Uid
  idForColumn : String → String → Uid
  deriveTableSeedFromRoot : Seed → String → Seed
  deriveColumnSeedFromRoot : Seed → String → String → Seed
  deriveColumnSeedFromTable : Seed → String → Seed
  deriveEntrySeedFromColumn : Seed → Salt → Seed
  deriveEntrySeedFromTable : Seed → String → Salt → Seed
  deriveEntrySeedFromRoot : Seed → String → String → Salt → Seed
  fromLockedNodes : List LockedNode → Seeds → FileSystem
  shareNode : FileSystem → Uid → Option Seed
  addOrUpdateSubtree : FileSystem → List LockedNode → Uid → Option FileSystem

/-- Embeds `Index::as_id` (spec: the deterministic id of a table or column,
matching `id_for_table` / `id_for_column`). -/
def Index.asId (cr : Crypto) : Index → Uid
  | .table t => cr.idForTable t
  | .column t c => cr.idForColumn t c

def strBytes (s : String) : Bytes := s.toList.map Char.toNat

/-- Embeds `User::derive_seed_with_label` (`user.rs`): HKDF the private keys to
`root`, then the result to the label. -/
def deriveSeedWithLabel (cr : Crypto) (idPriv : Private) (label : Bytes) : Seed :=
  let root := cr.hkdfExpand (idPriv.x448 ++ idPriv.ed25519) (strBytes "root")
  ⟨cr.hkdfExpand root label⟩

/-- Embeds `User::db_seed` (`user.rs`). -/
def dbSeed (cr : Crypto) (idPriv : Private) : Seed :=
  deriveSeedWithLabel cr idPriv (strBytes "db")

/-- Embeds `User::fs_seed` (`user.rs`). -/
def fsSeed (cr : Crypto) (idPriv : Private) : Seed :=
  deriveSeedWithLabel cr idPriv (strBytes "fs")

/-- Embeds `User` (`user.rs`). -/
structure User where
  identity : Identity
  imports : List Import
  exports : List Export
  fs : FileSystem
deriving DecidableEq

/-- Embeds `User::is_god` (`user.rs`). -/
def User.isGod (u : User) : Bool := u.identity.id = ⟨GOD_ID⟩

/-- Embeds `user::Error` (`user.rs`). -/
inductive Error where
  | badJson
  | wrongPass
  | badSalt
  | badKey
  | corruptData
  | noAccess
deriving DecidableEq

/-- The import arm of the `filter_map` in `unlock_with_params` (`user.rs`
lines 425-456): receiver check, decrypt, JSON-parse, signature check, and
sorted key-set comparison against the export id lists. -/
def importOfShare (cr : Crypto) (prv : Private) (pb : Public) (s : LockedShare) : Option Import :=
  if s.exprt.receiver = pb.id then
    match cr.decrypt prv s.payload with
    | some bytes =>
      match cr.parseBundle bytes with
      | some bundle =>
        if cr.verify s.sender s.sig (ctxToSign cr.sha256 s.sender s.exprt) = true ∧
            sortedUids (seedKeys bundle.fs) = sortedUids s.exprt.fs ∧
            sortedUids (seedKeys bundle.db) = sortedUids s.exprt.db then
          some ⟨s.sender, bundle⟩
        else none
      | none => none
    | none => none
  else none

/-- The export arm of `unlock_with_params` (`user.rs` lines 457-473): keep the
export of every self-sent share whose signature verifies. -/
def exportOfShare (cr : Crypto) (pb : Public) (s : LockedShare) : Option Export :=
  if s.sender.id = pb.id then
    if cr.verify s.sender s.sig (ctxToSign cr.sha256 s.sender s.exprt) then some s.exprt
    else none
  else none

/-- Embeds `unlock_with_params` (`user.rs`): collect validated imports and
exports, choose the filesystem seeds (god derives `fs_seed`, others use the
union of import fs maps), rebuild the filesystem, return the `User`. -/
def unlockWithParams (cr : Crypto) (prv : Private) (pb : Public)
    (shares : List LockedShare) (roots : List LockedNode) : Except Error User :=
  let imports := shares.filterMap (importOfShare cr prv pb)
  let exports := shares.filterMap (exportOfShare cr pb)
  let bundles : Seeds :=
    if pb.isGod then buildSeedMap [(rootUid, fsSeed cr prv)]
    else buildSeedMap (imports.flatMap (fun im => im.bundle.fs))
  let fs := cr.fromLockedNodes roots bundles
  .ok { identity := ⟨prv, pb⟩, imports := imports, exports := exports, fs := fs }

/-- The validation conjunction of the import arm, as the spec states it:
decryption, parsing, signature, and key-set agreement. -/
def importChecks (cr : Crypto) (prv : Private) (_pb : Public) (s : LockedShare) : Prop :=
  ∃ bytes bundle,
    cr.decrypt prv s.payload = some bytes ∧
    cr.parseBundle bytes = some bundle ∧
    cr.verify s.sender s.sig (ctxToSign cr.sha256 s.sender s.exprt) = true ∧
    sortedUids (seedKeys bundle.fs) = sortedUids s.exprt.fs ∧
    sortedUids (seedKeys bundle.db) = sortedUids s.exprt.db


theorem importOfShare_isSome_iff (cr : Crypto) (prv : Private) (pb : Public) (s : LockedShare)
    (hrecv : s.exprt.receiver = pb.id) :
    (importOfShare cr prv pb s).isSome ↔ importChecks cr prv pb s := by
  unfold importOfShare importChecks
  rw [if_pos hrecv]
  cases hdec : cr.decrypt prv s.payload with
  | none => simp
  | some bytes =>
    cases hpar : cr.parseBundle bytes with
    | none => simp [hpar]
    | some bundle =>
      by_cases hv : cr.verify s.sender s.sig (ctxToSign cr.sha256 s.sender s.exprt) = true ∧
          sortedUids (seedKeys bundle.fs) = sortedUids s.exprt.fs ∧
          sortedUids (seedKeys bundle.db) = sortedUids s.exprt.db
      · simp only [hpar, if_pos hv, Option.isSome_some, true_iff, Option.some.injEq]
        exact ⟨bytes, bundle, rfl, hpar, hv.1, hv.2.1, hv.2.2⟩
      · simp only [hpar, if_neg hv, Option.isSome_none, Bool.false_eq_true, false_iff]
        rintro ⟨b1, bu, hb, hp, h1, h2, h3⟩
        cases hb
        rw [hpar] at hp
        cases hp
        exact hv ⟨h1, h2, h3⟩

theorem importOfShare_eq_none_iff (cr : Crypto) (prv : Private) (pb : Public) (s : LockedShare) :
    importOfShare cr prv pb s = none ↔
      (s.exprt.receiver ≠ pb.id ∨ ¬ importChecks cr prv pb s) := by
  by_cases hrecv : s.exprt.receiver = pb.id
  · simp only [hrecv, ne_eq, not_true_eq_false, false_or]
    rw [← importOfShare_isSome_iff cr prv pb s hrecv]
    exact Iff.symm Option.not_isSome_iff_eq_none
  · refine iff_of_true ?_ (Or.inl hrecv)
    unfold importOfShare
    rw [if_neg hrecv]

/-- The share-rejection disjunction: wrong receiver, undecryptable payload,
unparsable bundle, bad signature, or key-set/export mismatch. -/
def shareFails (cr : Crypto) (prv : Private) (pb : Public) (s : LockedShare) : Prop :=
  s.exprt.receiver ≠ pb.id ∨
    cr.decrypt prv s.payload = none ∨
    (∃ bytes, cr.decrypt prv s.payload = some bytes ∧ cr.parseBundle bytes = none) ∨
    cr.verify s.sender s.sig (ctxToSign cr.sha256 s.sender s.exprt) = false ∨
    (∃ bytes bundle, cr.decrypt prv s.payload = some bytes ∧
      cr.parseBundle bytes = some bundle ∧
      (sortedUids (seedKeys bundle.fs) ≠ sortedUids s.exprt.fs ∨
        sortedUids (seedKeys bundle.db) ≠ sortedUids s.exprt.db))

theorem importOfShare_eq_none_of_fails (cr : Crypto) (prv : Private) (pb : Public)
    (s : LockedShare) (h : shareFails cr prv pb s) :
    importOfShare cr prv pb s = none := by
  rw [importOfShare_eq_none_iff]
  rcases h with h | h | h | h | h
  · exact Or.inl h
  · right
    rintro ⟨b1, bu, hd, _⟩
    rw [h] at hd
    cases hd
  · right
    rintro ⟨b1, bu, hd, hp, _⟩
    rcases h with ⟨b2, hd2, hp2⟩
    rw [hd2] at hd
    cases hd
    rw [hp2] at hp
    cases hp
  · right
    rintro ⟨b1, bu, hd, hp, hv, _⟩
    rw [h] at hv
    cases hv
  · right
    rintro ⟨b1, bu, hd, hp, hv, h2, h3⟩
    rcases h with ⟨b2, bu2, hd2, hp2, hbad⟩
    rw [hd2] at hd
    cases hd
    rw [hp2] at hp
    cases hp
    rcases hbad with hb | hb
    · exact hb h2
    · exact hb h3

theorem exportOfShare_eq_none (cr : Crypto) (pb : Public) (s : LockedShare)
    (h : s.sender.id ≠ pb.id ∨
      cr.verify s.sender s.sig (ctxToSign cr.sha256 s.sender s.exprt) = false) :
    exportOfShare cr pb s = none := by
  unfold exportOfShare
  rcases h with h | h
  · rw [if_neg h]
  · by_cases hs : s.sender.id = pb.id
    · rw [if_pos hs, if_neg (by simp [h])]
    · rw [if_neg hs]

/-- C1: a `LockedShare` whose `export.receiver` equals the unlocking user's
public id contributes an `Import` to the resulting `User` if and only if the
payload decrypts, the bytes parse as a `Bundle`, the sender's signature
verifies over `ctx_to_sign(sender, export)`, and the sorted bundle key sets
equal the sorted export id lists; a failing share is silently discarded
without affecting the imports contributed by the other shares. -/
theorem c1_unlock_import_validation (cr : Crypto) (prv : Private) (pb : Public)
    (pre post : List LockedShare) (roots : List LockedNode)
    (s : LockedShare) (hrecv : s.exprt.receiver = pb.id) :
    ∀ u, unlockWithParams cr prv pb (pre ++ s :: post) roots = .ok u →
      u.imports = pre.filterMap (importOfShare cr prv pb) ++
          (importOfShare cr prv pb s).toList ++ post.filterMap (importOfShare cr prv pb) ∧
        ((importOfShare cr prv pb s).isSome ↔ importChecks cr prv pb s) := by
  intro u hu
  unfold unlockWithParams at hu
  rw [Except.ok.injEq] at hu
  refine ⟨?_, importOfShare_isSome_iff cr prv pb s hrecv⟩
  rw [← hu]
  rw [List.filterMap_append, List.filterMap_cons]
  cases hs : importOfShare cr prv pb s <;> simp [hs]

/-- C4: `unlock_with_params` returns `Ok` on every input — per-share
validation failures are discarded share-by-share and the function as a whole
never errors. -/
theorem c4_unlock_total (cr : Crypto) (prv : Private) (pb : Public)
    (shares : List LockedShare) (roots : List LockedNode) :
    ∃ u, unlockWithParams cr prv pb shares roots = .ok u :=
  ⟨_, rfl⟩

/-- C3 (amended): appending a share `F` that fails the unlock validation
(wrong receiver, undecryptable payload, unparsable bundle, bad signature, or
key-set/export mismatch) leaves the unlock result unchanged, provided `F` is
also not retained as an export — that is, its sender id differs from the
user's id or its signature does not verify.  (The counterexample shows the
proviso is necessary: a self-sent share with a verifying signature changes
the `exports` of the resulting `User` even though it fails every import
check.) -/
theorem c3_failing_share_append_identity (cr : Crypto) (prv : Private) (pb : Public)
    (F : LockedShare) (hfail : shareFails cr prv pb F)
    (hexp : F.sender.id ≠ pb.id ∨
      cr.verify F.sender F.sig (ctxToSign cr.sha256 F.sender F.exprt) = false)
    (shares : List LockedShare) (roots : List LockedNode) :
    unlockWithParams cr prv pb (shares ++ [F]) roots =
      unlockWithParams cr prv pb shares roots := by
  unfold unlockWithParams
  rw [List.filterMap_append, List.filterMap_append]
  simp only [List.filterMap_cons, importOfShare_eq_none_of_fails cr prv pb F hfail,
    exportOfShare_eq_none cr pb F hexp, List.filterMap_nil, List.append_nil]

deriving instance DecidableEq for Except

/-- A concrete executable instantiation of the abstract primitives, used by
the closed witness and counterexample theorems. -/
def testCr : Crypto where
  sha256 := fun b => b
  sign := fun _ _ => 0
  verify := fun _ _ _ => true
  decrypt := fun _ _ => none
  parseBundle := fun _ => none
  encryptToPub := fun _ _ => 0
  hkdfExpand := fun ikm info => ikm ++ info
  hkdfExpandNoInfo := fun ikm => ikm
  aesEncrypt := fun _ pt => pt
  aesDecrypt := fun _ ct => some ct
  idForTable := fun t => ⟨(strBytes t).sum + 2⟩
  idForColumn := fun t c => ⟨(strBytes t).sum + 1000 * (strBytes c).sum + 3⟩
  deriveTableSeedFromRoot := fun s t => ⟨s.bytes ++ strBytes t⟩
  deriveColumnSeedFromRoot := fun s t c => ⟨s.bytes ++ strBytes t ++ strBytes c⟩
  deriveColumnSeedFromTable := fun s c => ⟨s.bytes ++ strBytes c⟩
  deriveEntrySeedFromColumn := fun s sa => ⟨s.bytes ++ sa.bytes⟩
  deriveEntrySeedFromTable := fun s c sa => ⟨s.bytes ++ strBytes c ++ sa.bytes⟩
  deriveEntrySeedFromRoot := fun s t c sa => ⟨s.bytes ++ strBytes t ++ strBytes c ++ sa.bytes⟩
  fromLockedNodes := fun _ _ => []
  shareNode := fun _ _ => none
  addOrUpdateSubtree := fun fs _ _ => some fs

def testPub : Public := ⟨⟨5⟩, 0⟩

def testPriv : Private := ⟨[], []⟩

/-- A share failing the import validation (wrong receiver) that is still
self-sent with a verifying signature. -/
def selfSentBadShare : LockedShare := ⟨testPub, ⟨⟨6⟩, [], []⟩, 0, 0⟩

/-- A share failing the import validation (wrong receiver) sent by a third
party. -/
def foreignBadShare : LockedShare := ⟨⟨⟨7⟩, 0⟩, ⟨⟨6⟩, [], []⟩, 0, 0⟩

/-- C3 counterexample: a share that fails the unlock validation (its receiver
is wrong), appended to the empty share list, changes the resulting `User` —
its export is still retained, because the export arm only checks the sender id
and the signature. -/
theorem c3_counterexample :
    shareFails testCr testPriv testPub selfSentBadShare ∧
      unlockWithParams testCr testPriv testPub [selfSentBadShare] [] ≠
        unlockWithParams testCr testPriv testPub [] [] :=
  ⟨Or.inl (by decide), by decide⟩

/-- C3 witness: the amended statement at a concrete failing share that is not
self-sent. -/
theorem c3_failing_share_append_identity_witness :
    shareFails testCr testPriv testPub foreignBadShare ∧
      (foreignBadShare.sender.id ≠ testPub.id ∨
        testCr.verify foreignBadShare.sender foreignBadShare.sig
          (ctxToSign testCr.sha256 foreignBadShare.sender foreignBadShare.exprt) = false) ∧
      unlockWithParams testCr testPriv testPub ([] ++ [foreignBadShare]) [] =
        unlockWithParams testCr testPriv testPub [] [] :=
  ⟨Or.inl (by decide), Or.inl (by decide),
    c3_failing_share_append_identity testCr testPriv testPub foreignBadShare
      (Or.inl (by decide)) (Or.inl (by decide)) [] []⟩

/-- A share whose receiver matches `testPub` but whose payload does not
decrypt. -/
def receiverMatchShare : LockedShare := ⟨⟨⟨7⟩, 0⟩, ⟨⟨5⟩, [], []⟩, 0, 0⟩

/-- C1 witness: the claim theorem applied at a concrete receiver-matching
share and the concrete unlock result. -/
theorem c1_unlock_import_validation_witness :
    receiverMatchShare.exprt.receiver = testPub.id ∧
      ((User.mk ⟨testPriv, testPub⟩ [] [] []).imports =
          [].filterMap (importOfShare testCr testPriv testPub) ++
            (importOfShare testCr testPriv testPub receiverMatchShare).toList ++
            [].filterMap (importOfShare testCr testPriv testPub) ∧
        ((importOfShare testCr testPriv testPub receiverMatchShare).isSome ↔
          importChecks testCr testPriv testPub receiverMatchShare)) :=
  ⟨by decide,
    c1_unlock_import_validation testCr testPriv testPub [] [] [] receiverMatchShare
      (by decide) (User.mk ⟨testPriv, testPub⟩ [] [] []) rfl⟩

/-- The db-seed union of all import bundles, as the non-god branch of
`seeds_for_ids` collects it (`user.rs` lines 119-123): a `HashMap` collected
from the flattened import db maps. -/
def importsDbMap (u : User) : Seeds :=
  buildSeedMap (u.imports.flatMap (fun im => im.bundle.db))

/-- One step of the god db branch of `seeds_for_ids` (`user.rs` lines
102-117): derive each requested index directly from the root db seed. -/
def godDbStep (cr : Crypto) (ds : Seed) (b : Bundle) (idx : Index) : Bundle :=
  match idx with
  | .table t => b.setDb (idx.asId cr) (cr.deriveTableSeedFromRoot ds t)
  | .column t c => b.setDb (idx.asId cr) (cr.deriveColumnSeedFromRoot ds t c)

/-- One step of the non-god db branch of `seeds_for_ids` (`user.rs` lines
125-159): exact import match first, else the held ancestor (table seed for a
column, then the root seed), else skip. -/
def dbStep (cr : Crypto) (m : Seeds) (b : Bundle) (idx : Index) : Bundle :=
  match lookupSeed m (idx.asId cr) with
  | some s => b.setDb (idx.asId cr) s
  | none =>
    match idx with
    | .table t =>
      match lookupSeed m rootUid with
      | some root => b.setDb (idx.asId cr) (cr.deriveTableSeedFromRoot root t)
      | none => b
    | .column t c =>
      match lookupSeed m (cr.idForTable t) with
      | some ts => b.setDb (idx.asId cr) (cr.deriveColumnSeedFromTable ts c)
      | none =>
        match lookupSeed m rootUid with
        | some root => b.setDb (idx.asId cr) (cr.deriveColumnSeedFromRoot root t c)
        | none => b

/-- The fs half of `seeds_for_ids` (`user.rs` lines 75-96). -/
def fsSelection (cr : Crypto) (u : User) : Option (List Uid) → Bundle
  | some ids =>
    ids.foldl (fun b id =>
      match cr.shareNode u.fs id with
      | some seed => b.setFs id seed
      | none => b) Bundle.new
  | none =>
    if u.isGod then Bundle.new.setFs rootUid (fsSeed cr u.identity._priv)
    else
      (u.imports.flatMap (fun im => im.bundle.fs)).foldl
        (fun b p => b.setFs p.1 p.2) Bundle.new

/-- Embeds `User::seeds_for_ids` (`user.rs` lines 67-175). -/
def User.seedsForIds (cr : Crypto) (u : User) (fsIds : Option (List Uid))
    (dbIds : Option (List Index)) : Bundle :=
  let b1 := fsSelection cr u fsIds
  match dbIds with
  | some idxs =>
    if u.isGod then idxs.foldl (godDbStep cr (dbSeed cr u.identity._priv)) b1
    else idxs.foldl (dbStep cr (importsDbMap u)) b1
  | none =>
    if u.isGod then b1.setDb rootUid (dbSeed cr u.identity._priv)
    else
      (u.imports.flatMap (fun im => im.bundle.db)).foldl
        (fun b p => b.setDb p.1 p.2) b1

/-- Embeds `User::export_seeds_to_identity` (`user.rs` lines 226-245). -/
def User.exportSeedsToIdentity (cr : Crypto) (u : User) (fsIds : Option (List Uid))
    (dbIds : Option (List Index)) (receiver : Public) : LockedShare :=
  let bundle := u.seedsForIds cr fsIds dbIds
  let pb := u.identity._pub
  let encrypted := cr.encryptToPub receiver bundle
  let exp := Export.fromBundle bundle receiver.id
  let sig := cr.sign u.identity._priv (ctxToSign cr.sha256 pb exp)
  ⟨pb, exp, encrypted, sig⟩

/-- C5: the `LockedShare` produced by `export_seeds_to_identity` carries a
signature over `sender.id().as_bytes() ++ Export::hash()`, where
`Export::hash()` is SHA-256 of the concatenation of the 8-byte big-endian
encodings of the sorted fs id list, then the sorted db id list, then the
receiver id; the hash (and hence the signed context) is invariant under any
reordering of the export's fs and db lists. -/
theorem c5_export_signature_structure (cr : Crypto) (u : User)
    (fsIds : Option (List Uid)) (dbIds : Option (List Index)) (receiver : Public) :
    (u.exportSeedsToIdentity cr fsIds dbIds receiver).sig =
        cr.sign u.identity._priv
          (u.identity._pub.id.beBytes ++
            cr.sha256
              (((sortedUids (u.exportSeedsToIdentity cr fsIds dbIds receiver).exprt.fs ++
                  sortedUids (u.exportSeedsToIdentity cr fsIds dbIds receiver).exprt.db).flatMap
                Uid.beBytes) ++
                (u.exportSeedsToIdentity cr fsIds dbIds receiver).exprt.receiver.beBytes)) ∧
      (u.exportSeedsToIdentity cr fsIds dbIds receiver).exprt.receiver = receiver.id ∧
      (∀ fs2 db2, fs2.Perm (u.exportSeedsToIdentity cr fsIds dbIds receiver).exprt.fs →
        db2.Perm (u.exportSeedsToIdentity cr fsIds dbIds receiver).exprt.db →
        Export.hash cr.sha256
            ⟨(u.exportSeedsToIdentity cr fsIds dbIds receiver).exprt.receiver, fs2, db2⟩ =
          Export.hash cr.sha256 (u.exportSeedsToIdentity cr fsIds dbIds receiver).exprt) := by
  refine ⟨rfl, rfl, ?_⟩
  intro fs2 db2 hf hd
  unfold Export.hash
  rw [sortedUids_eq_of_perm hf, sortedUids_eq_of_perm hd]

/-- A god test user. -/
def testGod : User := ⟨⟨testPriv, ⟨⟨0⟩, 0⟩⟩, [], [], []⟩

/-- C5 witness: permutation-invariance of the signed hash at a concrete
export, with the fs and db lists reversed. -/
theorem c5_export_signature_structure_witness :
    Export.hash testCr.sha256
        ⟨(testGod.exportSeedsToIdentity testCr none
            (some [Index.table "a", Index.table "b"]) testPub).exprt.receiver,
          (testGod.exportSeedsToIdentity testCr none
            (some [Index.table "a", Index.table "b"]) testPub).exprt.fs.reverse,
          (testGod.exportSeedsToIdentity testCr none
            (some [Index.table "a", Index.table "b"]) testPub).exprt.db.reverse⟩ =
      Export.hash testCr.sha256
        (testGod.exportSeedsToIdentity testCr none
          (some [Index.table "a", Index.table "b"]) testPub).exprt :=
  (c5_export_signature_structure testCr testGod none
      (some [Index.table "a", Index.table "b"]) testPub).2.2
    _ _ (List.reverse_perm _) (List.reverse_perm _)

theorem lookupSeed_insertSeed (m : Seeds) (k k2 : Uid) (v : Seed) :
    lookupSeed (insertSeed m k v) k2 = if k = k2 then some v else lookupSeed m k2 := by
  induction m with
  | nil => simp [insertSeed, lookupSeed]
  | cons p t ih =>
    obtain ⟨k1, v1⟩ := p
    by_cases h1 : k1 = k
    · subst h1
      simp only [insertSeed, if_pos rfl, lookupSeed]
      by_cases h2 : k1 = k2 <;> simp [h2]
    · simp only [insertSeed, if_neg h1, lookupSeed, ih]
      by_cases h2 : k1 = k2
      · by_cases h3 : k = k2
        · exact absurd (h3.trans h2.symm) (fun hk => h1 hk.symm)
        · simp [h2, h3]
      · simp [h2]

theorem mem_insertSeed (m : Seeds) (k : Uid) (v : Seed) (p : Uid × Seed)
    (h : p ∈ insertSeed m k v) : p ∈ m ∨ p = (k, v) := by
  induction m with
  | nil =>
    simp only [insertSeed, List.mem_singleton] at h
    exact Or.inr h
  | cons q t ih =>
    obtain ⟨k1, v1⟩ := q
    by_cases h1 : k1 = k
    · subst h1
      simp only [insertSeed, if_pos rfl] at h
      cases h with
      | head => exact Or.inr rfl
      | tail _ h2 => exact Or.inl (List.mem_cons_of_mem _ h2)
    · simp only [insertSeed, if_neg h1] at h
      cases h with
      | head => exact Or.inl (List.mem_cons_self _ _)
      | tail _ h2 =>
        rcases ih h2 with h3 | h3
        · exact Or.inl (List.mem_cons_of_mem _ h3)
        · exact Or.inr h3

/-- The value `dbStep` binds, expressed through the priority formula: the
exact import match, else the held ancestor derivation (table seed for a
column, then the root seed), else nothing. -/
def dbContribution (cr : Crypto) (m : Seeds) (idx : Index) : Option Seed :=
  match lookupSeed m (idx.asId cr) with
  | some s => some s
  | none =>
    match idx with
    | .table t => (lookupSeed m rootUid).map (fun r => cr.deriveTableSeedFromRoot r t)
    | .column t c =>
      match lookupSeed m (cr.idForTable t) with
      | some ts => some (cr.deriveColumnSeedFromTable ts c)
      | none => (lookupSeed m rootUid).map (fun r => cr.deriveColumnSeedFromRoot r t c)

theorem dbStep_eq (cr : Crypto) (m : Seeds) (b : Bundle) (idx : Index) :
    dbStep cr m b idx =
      match dbContribution cr m idx with
      | some s => b.setDb (idx.asId cr) s
      | none => b := by
  unfold dbStep dbContribution
  cases idx with
  | table t =>
    cases hx : lookupSeed m (Index.asId cr (Index.table t)) with
    | some s => simp [hx]
    | none => cases hr : lookupSeed m rootUid <;> simp [hx, hr]
  | column t c =>
    cases hx : lookupSeed m (Index.asId cr (Index.column t c)) with
    | some s => simp [hx]
    | none =>
      cases ht : lookupSeed m (cr.idForTable t) with
      | some ts => simp [hx, ht]
      | none => cases hr : lookupSeed m rootUid <;> simp [hx, ht, hr]

theorem foldl_dbStep_untouched (cr : Crypto) (m : Seeds) (l : List Index) (b : Bundle)
    (k : Uid) (h : ∀ j ∈ l, j.asId cr ≠ k) :
    lookupSeed (l.foldl (dbStep cr m) b).db k = lookupSeed b.db k := by
  induction l generalizing b with
  | nil => rfl
  | cons x t ih =>
    rw [List.foldl_cons, ih _ (fun j hj => h j (List.mem_cons_of_mem _ hj))]
    rw [dbStep_eq]
    cases dbContribution cr m x with
    | some s =>
      show lookupSeed (insertSeed b.db (x.asId cr) s) k = lookupSeed b.db k
      rw [lookupSeed_insertSeed, if_neg (h x (List.mem_cons_self _ _))]
    | none => rfl

theorem lookup_foldl_dbStep (cr : Crypto) (m : Seeds) (l : List Index) (b : Bundle)
    (idx : Index) (hmem : idx ∈ l)
    (huniq : ∀ j ∈ l, j.asId cr = idx.asId cr → j = idx) :
    lookupSeed (l.foldl (dbStep cr m) b).db (idx.asId cr) =
      match dbContribution cr m idx with
      | some s => some s
      | none => lookupSeed b.db (idx.asId cr) := by
  induction l generalizing b with
  | nil => cases hmem
  | cons x t ih =>
    rw [List.foldl_cons]
    by_cases hx : x = idx
    · subst hx
      by_cases hmem2 : x ∈ t
      · have h5 := ih (dbStep cr m b x) hmem2
          (fun j hj he => huniq j (List.mem_cons_of_mem _ hj) he)
        cases hc : dbContribution cr m x with
        | some s =>
          simp only [hc] at h5 ⊢
          exact h5
        | none =>
          have hb : dbStep cr m b x = b := by rw [dbStep_eq, hc]
          simp only [hc, hb] at h5 ⊢
          exact h5
      · have huntouched : ∀ j ∈ t, j.asId cr ≠ x.asId cr := by
          intro j hj he
          exact hmem2 (huniq j (List.mem_cons_of_mem _ hj) he ▸ hj)
        rw [foldl_dbStep_untouched cr m t _ _ huntouched, dbStep_eq]
        cases hc : dbContribution cr m x with
        | some s =>
          show lookupSeed (insertSeed b.db (x.asId cr) s) (x.asId cr) = _
          simp [lookupSeed_insertSeed]
        | none => simp only []
    · have hmem2 : idx ∈ t := by
        rcases List.mem_cons.mp hmem with h | h
        · exact absurd h.symm hx
        · exact h
      have h5 := ih (dbStep cr m b x) hmem2
        (fun j hj he => huniq j (List.mem_cons_of_mem _ hj) he)
      have hne : x.asId cr ≠ idx.asId cr := fun he => hx (huniq x (List.mem_cons_self _ _) he)
      cases hc : dbContribution cr m idx with
      | some s =>
        simp only [hc] at h5 ⊢
        exact h5
      | none =>
        simp only [hc] at h5 ⊢
        rw [h5, dbStep_eq]
        cases dbContribution cr m x with
        | some s2 =>
          show lookupSeed (insertSeed b.db (x.asId cr) s2) (idx.asId cr) = lookupSeed b.db _
          rw [lookupSeed_insertSeed, if_neg hne]
        | none => rfl

theorem mem_foldl_dbStep (cr : Crypto) (m : Seeds) (l : List Index) (b : Bundle)
    (p : Uid × Seed) (h : p ∈ (l.foldl (dbStep cr m) b).db) :
    p ∈ b.db ∨ ∃ idx ∈ l, p.1 = idx.asId cr ∧ dbContribution cr m idx = some p.2 := by
  induction l generalizing b with
  | nil => exact Or.inl h
  | cons x t ih =>
    rw [List.foldl_cons] at h
    rcases ih _ h with h2 | h2
    · rw [dbStep_eq] at h2
      rcases hc : dbContribution cr m x with _ | s
      · rw [hc] at h2
        exact Or.inl h2
      · rw [hc] at h2
        rcases mem_insertSeed _ _ _ _ h2 with h3 | h3
        · exact Or.inl h3
        · refine Or.inr ⟨x, List.mem_cons_self _ _, ?_, ?_⟩
          · rw [h3]
          · rw [hc, h3]
    · obtain ⟨idx, hidx, h3, h4⟩ := h2
      exact Or.inr ⟨idx, List.mem_cons_of_mem _ hidx, h3, h4⟩

theorem fsSelection_db (cr : Crypto) (u : User) (fsIds : Option (List Uid)) :
    (fsSelection cr u fsIds).db = [] := by
  cases fsIds with
  | some ids =>
    have hgen : ∀ (l : List Uid) (b : Bundle),
        ((l.foldl (fun b id =>
          match cr.shareNode u.fs id with
          | some seed => b.setFs id seed
          | none => b) b).db = b.db) := by
      intro l
      induction l with
      | nil => intro b; rfl
      | cons a t ih =>
        intro b
        rw [List.foldl_cons, ih]
        cases cr.shareNode u.fs a <;> rfl
    exact hgen ids Bundle.new
  | none =>
    unfold fsSelection
    by_cases hg : u.isGod
    · rw [if_pos hg]
      rfl
    · rw [if_neg hg]
      have hgen : ∀ (l : List (Uid × Seed)) (b : Bundle),
          ((l.foldl (fun b p => b.setFs p.1 p.2) b).db = b.db) := by
        intro l
        induction l with
        | nil => intro b; rfl
        | cons a t ih =>
          intro b
          rw [List.foldl_cons, ih]
          rfl
      exact hgen _ Bundle.new

/-- C2: for a non-god user and `db_ids = Some(list)` with pairwise distinct
requested ids, the bundle's db map binds `idx.as_id()` exactly to the seed
given by the priority formula `dbContribution` — the exact import match, else
the derivation from a held table seed (for a column), else from a held root
seed — and is `none` (the id is silently absent) when no exact or ancestor
seed is held; moreover every db entry of the bundle comes from some requested
index whose seed the user can produce, so the bundle never contains authority
the caller does not hold. -/
theorem c2_seeds_for_ids_attenuation (cr : Crypto) (u : User) (hng : u.isGod = false)
    (fsIds : Option (List Uid)) (l : List Index)
    (huniq : ∀ i ∈ l, ∀ j ∈ l, i.asId cr = j.asId cr → i = j) :
    (∀ idx ∈ l,
      lookupSeed (u.seedsForIds cr fsIds (some l)).db (idx.asId cr) =
        dbContribution cr (importsDbMap u) idx) ∧
      ∀ p ∈ (u.seedsForIds cr fsIds (some l)).db,
        ∃ idx ∈ l, p.1 = idx.asId cr ∧ dbContribution cr (importsDbMap u) idx = some p.2 := by
  have hred : u.seedsForIds cr fsIds (some l) =
      l.foldl (dbStep cr (importsDbMap u)) (fsSelection cr u fsIds) := by
    unfold User.seedsForIds
    simp [hng]
  constructor
  · intro idx hmem
    rw [hred]
    rw [lookup_foldl_dbStep cr (importsDbMap u) l _ idx hmem
      (fun j hj he => huniq j hj idx hmem he)]
    cases hc : dbContribution cr (importsDbMap u) idx with
    | some s => rfl
    | none =>
      rw [fsSelection_db]
      rfl
  · intro p hp
    rw [hred] at hp
    rcases mem_foldl_dbStep cr _ l _ p hp with h | h
    · rw [fsSelection_db] at h
      cases h
    · exact h

/-- A non-god test user holding a root db seed through a single import. -/
def testAdmin : User :=
  ⟨⟨testPriv, testPub⟩, [⟨testPub, ⟨[], [(rootUid, ⟨[1]⟩)]⟩⟩], [], []⟩

/-- C2 witness: the attenuation lookup equation at a concrete non-god user,
request list, and requested index. -/
theorem c2_seeds_for_ids_attenuation_witness :
    lookupSeed (testAdmin.seedsForIds testCr none (some [Index.table "t"])).db
        ((Index.table "t").asId testCr) =
      dbContribution testCr (importsDbMap testAdmin) (Index.table "t") :=
  (c2_seeds_for_ids_attenuation testCr testAdmin (by decide) none [Index.table "t"]
      (by decide)).1 (Index.table "t") (List.mem_singleton.mpr rfl)

/-- Modelled from the spec: the `SeedById` helper of `database.rs` (not under
`src/`): across all held bundles, find the first whose db map contains `id`,
then apply `derive_fn` to its seed. -/
def seedById (bundles : List Seeds) (id : Uid) (derive : Seed → Seed) : Option Seed :=
  (bundles.findSome? (fun b => lookupSeed b id)).map derive

/-- Embeds `encrypted::Encrypted`: the `{ct, salt}` pair a serialized db cell
denotes. -/
structure EncryptedEntry where
  ct : Bytes
  salt : Salt
deriving DecidableEq

/-- Embeds `User::aes_for_entry_in_table` (`user.rs` lines 335-380): try the
column seed, then the table seed, then the root seed, then (for god) direct
derivation, else `NoAccess`; the AES cipher is represented by its HKDF
key-and-iv expansion. -/
def User.aesForEntryInTable (cr : Crypto) (u : User) (table column : String) (salt : Salt) :
    Except Error Bytes :=
  let bundles := u.imports.map (fun s => s.bundle.db)
  let seedRes : Except Error Seed :=
    match seedById bundles (cr.idForColumn table column)
        (fun s => cr.deriveEntrySeedFromColumn s salt) with
    | some seedFromCol => .ok seedFromCol
    | none =>
      match seedById bundles (cr.idForTable table)
          (fun s => cr.deriveEntrySeedFromTable s column salt) with
      | some seedFromTable => .ok seedFromTable
      | none =>
        match seedById bundles rootUid
            (fun s => cr.deriveEntrySeedFromRoot s table column salt) with
        | some seedFromRoot => .ok seedFromRoot
        | none =>
          if u.isGod then
            .ok (cr.deriveEntrySeedFromRoot (dbSeed cr u.identity._priv) table column salt)
          else .error .noAccess
  seedRes.map (fun seed => cr.hkdfExpandNoInfo seed.bytes)

/-- Embeds `User::encrypt_db_entry` (`user.rs` lines 311-318); the fresh
random salt is an explicit argument, and the returned JSON string is
represented by the `EncryptedEntry` it serializes. -/
def User.encryptDbEntry (cr : Crypto) (u : User) (table : String) (pt : Bytes)
    (column : String) (salt : Salt) : Except Error EncryptedEntry :=
  (u.aesForEntryInTable cr table column salt).map (fun aes => ⟨cr.aesEncrypt aes pt, salt⟩)

/-- Embeds `User::decrypt_db_entry` (`user.rs` lines 321-332); JSON parsing is
represented by consuming the `EncryptedEntry` structure, so the `BadJson` arm
(a string that denotes no such structure) does not appear. -/
def User.decryptDbEntry (cr : Crypto) (u : User) (table : String) (e : EncryptedEntry)
    (column : String) : Except Error Bytes :=
  match u.aesForEntryInTable cr table column e.salt with
  | .error er => .error er
  | .ok aes =>
    match cr.aesDecrypt aes e.ct with
    | some pt => .ok pt
    | none => .error .badKey

/-- No import bundle holds a db seed under the column id, the table id, or
`ROOT_ID`. -/
def noDbSeed (cr : Crypto) (u : User) (table column : String) : Prop :=
  ∀ im ∈ u.imports,
    lookupSeed im.bundle.db (cr.idForColumn table column) = none ∧
    lookupSeed im.bundle.db (cr.idForTable table) = none ∧
    lookupSeed im.bundle.db rootUid = none

theorem seedById_eq_none_iff (bundles : List Seeds) (id : Uid) (f : Seed → Seed) :
    seedById bundles id f = none ↔ ∀ b ∈ bundles, lookupSeed b id = none := by
  unfold seedById
  rw [Option.map_eq_none', List.findSome?_eq_none_iff]

theorem aesForEntry_isOk (cr : Crypto) (u : User) (table column : String) (salt : Salt)
    (hacc : ¬ noDbSeed cr u table column ∨ u.isGod = true) :
    ∃ k, u.aesForEntryInTable cr table column salt = .ok k := by
  unfold User.aesForEntryInTable
  dsimp only
  cases h1 : seedById (u.imports.map fun s => s.bundle.db) (cr.idForColumn table column)
      (fun s => cr.deriveEntrySeedFromColumn s salt) with
  | some s1 => exact ⟨_, rfl⟩
  | none =>
    cases h2 : seedById (u.imports.map fun s => s.bundle.db) (cr.idForTable table)
        (fun s => cr.deriveEntrySeedFromTable s column salt) with
    | some s2 => exact ⟨_, rfl⟩
    | none =>
      cases h3 : seedById (u.imports.map fun s => s.bundle.db) rootUid
          (fun s => cr.deriveEntrySeedFromRoot s table column salt) with
      | some s3 => exact ⟨_, rfl⟩
      | none =>
        cases hg : u.isGod with
        | true => exact ⟨_, rfl⟩
        | false =>
          exfalso
          rcases hacc with hacc | hacc
          · rw [seedById_eq_none_iff] at h1 h2 h3
            refine hacc (fun im him => ⟨?_, ?_, ?_⟩)
            · exact h1 _ (List.mem_map_of_mem _ him)
            · exact h2 _ (List.mem_map_of_mem _ him)
            · exact h3 _ (List.mem_map_of_mem _ him)
          · rw [hg] at hacc
            cases hacc

/-- C6: for every user holding an ancestor seed for the (table, column) pair
— a column seed, a table seed, a root db seed (in any import), or god's
identity — and every plaintext and salt, `decrypt_db_entry` applied to
`encrypt_db_entry` returns the original plaintext, the entry seed being
chosen inside `aes_for_entry_in_table` by the highest-authority path
available (column, then table, then root, then god's direct derivation);
the AEAD round-trip of the external AES-GCM primitive is a hypothesis. -/
theorem c6_db_entry_roundtrip (cr : Crypto)
    (hAes : ∀ k pt, cr.aesDecrypt k (cr.aesEncrypt k pt) = some pt)
    (u : User) (table column : String) (pt : Bytes) (salt : Salt)
    (hacc : ¬ noDbSeed cr u table column ∨ u.isGod = true) :
    ∃ e, u.encryptDbEntry cr table pt column salt = .ok e ∧
      u.decryptDbEntry cr table e column = .ok pt := by
  obtain ⟨k, hk⟩ := aesForEntry_isOk cr u table column salt hacc
  refine ⟨⟨cr.aesEncrypt k pt, salt⟩, ?_, ?_⟩
  · unfold User.encryptDbEntry
    rw [hk]
    rfl
  · unfold User.decryptDbEntry
    rw [hk]
    dsimp only
    rw [hAes]

/-- C6 witness: the round-trip at god, a concrete message, and a concrete
salt. -/
theorem c6_db_entry_roundtrip_witness :
    testGod.encryptDbEntry testCr "messages" [104, 105] "text" ⟨[9]⟩ =
        .ok ⟨[104, 105], ⟨[9]⟩⟩ ∧
      testGod.decryptDbEntry testCr "messages" ⟨[104, 105], ⟨[9]⟩⟩ "text" = .ok [104, 105] := by
  obtain ⟨e, h1, h2⟩ := c6_db_entry_roundtrip testCr (fun k pt => rfl) testGod "messages"
    "text" [104, 105] ⟨[9]⟩ (Or.inr (by decide))
  have he : testGod.encryptDbEntry testCr "messages" [104, 105] "text" ⟨[9]⟩ =
      .ok ⟨[104, 105], ⟨[9]⟩⟩ := by decide
  rw [he] at h1
  cases h1
  exact ⟨he, h2⟩

/-- C10: if the user is god, `aes_for_entry_in_table` never errors; if the
user is not god, it returns `Err(NoAccess)` exactly when no import bundle's
db map contains a seed under the column id, the table id, or `ROOT_ID`; and
`NoAccess` is the only error `encrypt_db_entry` can return. -/
theorem c10_aes_for_entry_errors (cr : Crypto) (u : User) (table column : String)
    (salt : Salt) (pt : Bytes) :
    (u.isGod = true → ∃ k, u.aesForEntryInTable cr table column salt = .ok k) ∧
      (u.isGod = false →
        (u.aesForEntryInTable cr table column salt = .error .noAccess ↔
          noDbSeed cr u table column)) ∧
      ∀ er, u.encryptDbEntry cr table pt column salt = .error er → er = .noAccess := by
  refine ⟨fun hg => aesForEntry_isOk cr u table column salt (Or.inr hg), ?_, ?_⟩
  · intro hng
    constructor
    · intro herr
      by_contra hno
      obtain ⟨k, hk⟩ := aesForEntry_isOk cr u table column salt (Or.inl hno)
      rw [hk] at herr
      cases herr
    · intro hno
      unfold User.aesForEntryInTable
      dsimp only
      have h1 : seedById (u.imports.map fun s => s.bundle.db) (cr.idForColumn table column)
          (fun s => cr.deriveEntrySeedFromColumn s salt) = none := by
        rw [seedById_eq_none_iff]
        intro b hb
        rw [List.mem_map] at hb
        obtain ⟨im, him, rfl⟩ := hb
        exact (hno im him).1
      have h2 : seedById (u.imports.map fun s => s.bundle.db) (cr.idForTable table)
          (fun s => cr.deriveEntrySeedFromTable s column salt) = none := by
        rw [seedById_eq_none_iff]
        intro b hb
        rw [List.mem_map] at hb
        obtain ⟨im, him, rfl⟩ := hb
        exact (hno im him).2.1
      have h3 : seedById (u.imports.map fun s => s.bundle.db) rootUid
          (fun s => cr.deriveEntrySeedFromRoot s table column salt) = none := by
        rw [seedById_eq_none_iff]
        intro b hb
        rw [List.mem_map] at hb
        obtain ⟨im, him, rfl⟩ := hb
        exact (hno im him).2.2
      rw [h1, h2, h3, hng]
      rfl
  · intro er her
    unfold User.encryptDbEntry User.aesForEntryInTable at her
    dsimp only at her
    cases h1 : seedById (u.imports.map fun s => s.bundle.db) (cr.idForColumn table column)
        (fun s => cr.deriveEntrySeedFromColumn s salt) with
    | some s1 => rw [h1] at her; cases her
    | none =>
      rw [h1] at her
      cases h2 : seedById (u.imports.map fun s => s.bundle.db) (cr.idForTable table)
          (fun s => cr.deriveEntrySeedFromTable s column salt) with
      | some s2 => rw [h2] at her; cases her
      | none =>
        rw [h2] at her
        cases h3 : seedById (u.imports.map fun s => s.bundle.db) rootUid
            (fun s => cr.deriveEntrySeedFromRoot s table column salt) with
        | some s3 => rw [h3] at her; cases her
        | none =>
          rw [h3] at her
          cases hg : u.isGod with
          | true =>
            rw [hg] at her
            simp only [if_true, Except.map_ok] at her
            cases her
          | false =>
            rw [hg] at her
            exact (Except.error.inj her).symm

/-- C10 witness: at a concrete non-god user with a root seed import and a
concrete god user. -/
theorem c10_aes_for_entry_errors_witness :
    (∃ k, testGod.aesForEntryInTable testCr "t" "c" ⟨[9]⟩ = .ok k) ∧
      (testAdmin.aesForEntryInTable testCr "t" "c" ⟨[9]⟩ = .error .noAccess ↔
        noDbSeed testCr testAdmin "t" "c") := by
  constructor
  · exact (c10_aes_for_entry_errors testCr testGod "t" "c" ⟨[9]⟩ []).1 (by decide)
  · exact (c10_aes_for_entry_errors testCr testAdmin "t" "c" ⟨[9]⟩ []).2.1 (by decide)

/-- Embeds `protocol::Error` (`protocol.rs`). -/
inductive PError where
  | notFound
  | noNetwork (detail : String)
  | noAccess
  | badOperation
  | badJson
  | forgedSig
deriving DecidableEq

/-- Embeds `NodeView` (`protocol.rs`). -/
structure NodeView where
  id : Uid
  createdAt : Nat
  size : Nat
  name : String
  ext : Option String
deriving DecidableEq

/-- Embeds `DirView` (`protocol.rs`). -/
structure DirView where
  items : List NodeView
  name : String
  breadcrumbs : List NodeView
deriving DecidableEq

/-- Embeds `From<Node> for NodeView` (`protocol.rs`). -/
def NodeView.fromNode (n : Node) : NodeView :=
  match n.entry with
  | .file ext size _ => ⟨n.id, n.createdAt, size, n.name, ext⟩
  | .dir _ _ => ⟨n.id, n.createdAt, 0, n.name, none⟩

/-- Embeds `TryFrom<Node> for DirView` (`protocol.rs`): a directory yields a
view of its children, anything else is `BadOperation`; children ids are
resolved against the filesystem since the node model keeps them as ids. -/
def dirViewOfNode (fs : FileSystem) (n : Node) : Except PError DirView :=
  match n.entry with
  | .dir _ children =>
    .ok ⟨children.filterMap (fun cid => (nodeById fs cid).map NodeView.fromNode), n.name, []⟩
  | .file _ _ _ => .error .badOperation

/-- Embeds the `Network` capability (`protocol.rs`): `fetch_subtree`. -/
abbrev Network := Uid → Except PError (List LockedNode)

/-- Embeds `Protocol` (`protocol.rs`): the current directory and the user. -/
structure Protocol where
  cd : Option Uid
  user : User

/-- The breadcrumb walk of `ls_cur_mut_impl` (`protocol.rs` lines 206-223):
walk `parent_id` upwards until `NO_PARENT_ID`, collecting views; the fuel
bounds the walk against corrupted cyclic stores (the push order is reversed
by the caller). -/
def breadcrumbWalk (fs : FileSystem) : Nat → Uid → List NodeView → List NodeView
  | 0, _, acc => acc
  | fuel + 1, cur, acc =>
    if cur = noParentUid then acc
    else
      match nodeById fs cur with
      | some n => breadcrumbWalk fs fuel n.parentId (acc ++ [⟨cur, n.createdAt, 0, n.name, none⟩])
      | none => breadcrumbWalk fs fuel noParentUid (acc ++ [⟨cur, 0, 0, "~", none⟩])

/-- The root view built by `cd_to_root` when no `ROOT_ID` node exists
(`protocol.rs` lines 244-258). -/
def cdToRootView (fs : FileSystem) : DirView :=
  ⟨(lsRoot fs).map NodeView.fromNode, "~", []⟩

/-- Embeds `Protocol::ls_cur_mut_impl` (`protocol.rs` lines 190-237), with
fuel bounding the refresh recursion (and, through the spec's design note, the
breadcrumb walk); the `cd_to_root` fallback is inlined, and the source's
`unwrap` panic inside `cd_to_root` is modelled as error propagation. -/
def lsCurMutImpl (cr : Crypto) (net : Network) :
    Nat → Protocol → Except PError DirView × Protocol
  | 0, p => (.error .notFound, p)
  | fuel + 1, p =>
    match p.cd with
    | some cd =>
      match nodeById p.user.fs cd with
      | some node =>
        if node.dirty then
          match net cd with
          | .error e => (.error e, p)
          | .ok nodes =>
            match cr.addOrUpdateSubtree p.user.fs nodes cd with
            | none => (.error .notFound, p)
            | some fs2 =>
              lsCurMutImpl cr net fuel { p with user := { p.user with fs := fs2 } }
        else
          match dirViewOfNode p.user.fs node with
          | .error e => (.error e, p)
          | .ok dv =>
            (.ok { dv with
                breadcrumbs := (breadcrumbWalk p.user.fs (fuel + 1) node.parentId []).reverse },
              p)
      | none =>
        if (nodeById p.user.fs rootUid).isSome then
          lsCurMutImpl cr net fuel { p with cd := some rootUid }
        else (.ok (cdToRootView p.user.fs), { p with cd := none })
    | none =>
      if (nodeById p.user.fs rootUid).isSome then
        lsCurMutImpl cr net fuel { p with cd := some rootUid }
      else (.ok (cdToRootView p.user.fs), { p with cd := none })

/-- Embeds `Protocol::cd_to_dir` (`protocol.rs` lines 277-281). -/
def cdToDir (cr : Crypto) (net : Network) (fuel : Nat) (id : Uid) (p : Protocol) :
    Except PError DirView × Protocol :=
  lsCurMutImpl cr net fuel { p with cd := some id }

/-- Embeds `Protocol::cd_to_root` (`protocol.rs` lines 239-260). -/
def cdToRoot (cr : Crypto) (net : Network) (fuel : Nat) (p : Protocol) :
    Except PError DirView × Protocol :=
  if (nodeById p.user.fs rootUid).isSome then cdToDir cr net fuel rootUid p
  else (.ok (cdToRootView p.user.fs), { p with cd := none })

/-- Embeds `Protocol::go_back` (`protocol.rs` lines 263-274). -/
def goBack (cr : Crypto) (net : Network) (fuel : Nat) (p : Protocol) :
    Except PError DirView × Protocol :=
  match p.cd with
  | some cd =>
    match nodeById p.user.fs cd with
    | some node => cdToDir cr net fuel node.parentId p
    | none => cdToRoot cr net fuel p
  | none => cdToRoot cr net fuel p

/-- A clean directory node with id `ROOT_ID`. -/
def rootNode : Node := ⟨⟨0⟩, noParentUid, 0, "root", .dir ⟨[]⟩ [], false⟩

/-- A clean directory node (id 4) whose parent is the sentinel. -/
def cleanNode : Node := ⟨⟨4⟩, noParentUid, 0, "d", .dir ⟨[]⟩ [], false⟩

/-- A dirty directory node (id 3). -/
def dirtyNode : Node := ⟨⟨3⟩, noParentUid, 0, "x", .dir ⟨[]⟩ [], true⟩

/-- A network returning an empty subtree. -/
def netEmpty : Network := fun _ => .ok []

/-- A crypto environment whose subtree update empties the filesystem. -/
def testCrVanish : Crypto := { testCr with addOrUpdateSubtree := fun _ _ _ => some [] }

/-- A user over a given filesystem. -/
def userWithFs (fs : FileSystem) : User := ⟨⟨testPriv, testPub⟩, [], [], fs⟩

/-- C9 counterexample: (a) with a `ROOT_ID` node present, an ls with an
unresolvable `cd` leaves `cd = Some(ROOT_ID)`, not `None`; (b) `cd_to_dir(id)`
with an unresolvable `id` (and no root node) leaves `cd = None`, not
`Some(id)`; (c) `cd_to_dir(id)` on a dirty node whose refresh removes it does
not leave `cd = Some(id)` either. -/
theorem c9_counterexample :
    ((lsCurMutImpl testCr netEmpty 2 ⟨some ⟨99⟩, userWithFs [rootNode]⟩).2.cd = some ⟨0⟩ ∧
        (lsCurMutImpl testCr netEmpty 2 ⟨some ⟨99⟩, userWithFs [rootNode]⟩).2.cd ≠ none) ∧
      (cdToDir testCr netEmpty 1 ⟨99⟩ ⟨none, userWithFs []⟩).2.cd ≠ some ⟨99⟩ ∧
      (cdToDir testCrVanish netEmpty 2 ⟨3⟩ ⟨none, userWithFs [dirtyNode]⟩).2.cd ≠ some ⟨3⟩ := by
  decide

/-- C9 (amended): over a filesystem with no `ROOT_ID` node (the virtual-root
configuration; otherwise the fallback lands at `Some(ROOT_ID)`, see the
counterexample), the current-directory state machine satisfies:
`cd_to_dir(id)` leaves `cd = Some(id)` whenever `id` resolves to a non-dirty
node; `go_back()` at the root or on a missing parent (every resolvable `cd`
has an unresolvable parent) leaves `cd = None`; and an ls with an
unresolvable `cd` leaves `cd = None`. -/
theorem c9_cd_state_machine (cr : Crypto) (net : Network) (p : Protocol) (fuel : Nat)
    (hroot : nodeById p.user.fs rootUid = none) :
    (∀ id node, nodeById p.user.fs id = some node → node.dirty = false →
      (cdToDir cr net (fuel + 1) id p).2.cd = some id) ∧
      ((∀ c node, p.cd = some c → nodeById p.user.fs c = some node →
          nodeById p.user.fs node.parentId = none) →
        (goBack cr net (fuel + 1) p).2.cd = none) ∧
      (∀ c, p.cd = some c → nodeById p.user.fs c = none →
        (lsCurMutImpl cr net (fuel + 1) p).2.cd = none) := by
  refine ⟨?_, ?_, ?_⟩
  · intro id node hn hd
    show (lsCurMutImpl cr net (fuel + 1) { p with cd := some id }).2.cd = some id
    unfold lsCurMutImpl
    dsimp only
    simp only [hn, hd, Bool.false_eq_true, if_false]
    cases hv : dirViewOfNode p.user.fs node with
    | error e => rfl
    | ok dv => rfl
  · intro hpar
    unfold goBack
    cases hcd : p.cd with
    | none =>
      dsimp only
      unfold cdToRoot
      simp only [hroot, Option.isSome_none, Bool.false_eq_true, if_false]
    | some c =>
      cases hn : nodeById p.user.fs c with
      | none =>
        dsimp only
        simp only [hn]
        unfold cdToRoot
        simp only [hroot, Option.isSome_none, Bool.false_eq_true, if_false]
      | some node =>
        have hp := hpar c node hcd hn
        dsimp only
        simp only [hn]
        show (lsCurMutImpl cr net (fuel + 1) { p with cd := some node.parentId }).2.cd = none
        unfold lsCurMutImpl
        dsimp only
        simp only [hp, hroot, Option.isSome_none, Bool.false_eq_true, if_false]
  · intro c hcd hn
    unfold lsCurMutImpl
    rw [hcd]
    dsimp only
    simp only [hn, hroot, Option.isSome_none, Bool.false_eq_true, if_false]

/-- C9 witness: the amended state machine at a concrete virtual-root
filesystem — `cd_to_dir` on a resolvable clean node, `go_back` at the root,
and an ls with an unresolvable `cd`. -/
theorem c9_cd_state_machine_witness :
    (cdToDir testCr netEmpty 1 ⟨4⟩ ⟨some ⟨4⟩, userWithFs [cleanNode]⟩).2.cd = some ⟨4⟩ ∧
      (goBack testCr netEmpty 1 ⟨some ⟨4⟩, userWithFs [cleanNode]⟩).2.cd = none ∧
      (lsCurMutImpl testCr netEmpty 1 ⟨some ⟨9⟩, userWithFs [cleanNode]⟩).2.cd = none := by
  refine ⟨?_, ?_, ?_⟩
  · exact (c9_cd_state_machine testCr netEmpty ⟨some ⟨4⟩, userWithFs [cleanNode]⟩ 0
      (by decide)).1 ⟨4⟩ cleanNode (by decide) (by decide)
  · refine (c9_cd_state_machine testCr netEmpty ⟨some ⟨4⟩, userWithFs [cleanNode]⟩ 0
      (by decide)).2.1 ?_
    intro c node hc hn
    cases Option.some.inj hc
    have hnode := hn.symm.trans
      (show nodeById (Protocol.mk (some ⟨4⟩) (userWithFs [cleanNode])).user.fs ⟨4⟩ =
        some cleanNode by decide)
    cases Option.some.inj hnode
    decide
  · exact (c9_cd_state_machine testCr netEmpty ⟨some ⟨9⟩, userWithFs [cleanNode]⟩ 0
      (by decide)).2.2 ⟨9⟩ rfl (by decide)

end QVault
